import Mathlib

/-!
Verification of the tunnel subsystem of dy-tool-server: the shared-store
port allocator (`base/tunnel.py`), the FRP tunnel lifecycle
(`impls/tunnel/frp.py`) and the implementation registry
(`base/registry.py`), shallowly embedded as pure Lean functions over an
explicit store/state.
-/

/-- One key of the shared store: the key string, the stored integer value,
and an optional expiry deadline (absolute time), as set by `expire`.
Models the Redis string keys used by `BaseTunnel`. -/
structure StoreEntry where
  key : String
  val : Nat
  deadline : Option Nat
deriving DecidableEq

/-- The shared Redis-like store: the set behind the used-ports key
(`sadd`/`srem`/`smembers` — set members never carry a TTL), the string
keys (`set`/`get`/`delete`/`expire`), and the current clock. -/
structure RedisStore where
  usedPorts : Finset Nat
  entries : List StoreEntry
  now : Nat
deriving DecidableEq

/-- Models `redis.sadd(used_ports_key, p)`. -/
def RedisStore.sadd (r : RedisStore) (p : Nat) : RedisStore :=
  { r with usedPorts := insert p r.usedPorts }

/-- Models `redis.srem(used_ports_key, p)`. -/
def RedisStore.srem (r : RedisStore) (p : Nat) : RedisStore :=
  { r with usedPorts := r.usedPorts.erase p }

/-- Models `redis.set(k, v)`: overwrites the key and clears any TTL. -/
def RedisStore.setKey (r : RedisStore) (k : String) (v : Nat) : RedisStore :=
  { r with entries := ⟨k, v, none⟩ :: r.entries.filter (fun e => e.key ≠ k) }

/-- Models `redis.expire(k, t)`: sets the key's deadline to `now + t` when
the key is present. -/
def RedisStore.expire (r : RedisStore) (k : String) (t : Nat) : RedisStore :=
  let upd : StoreEntry → StoreEntry := fun e =>
    if e.key = k then { key := e.key, val := e.val, deadline := some (r.now + t) } else e
  { r with entries := r.entries.map upd }

/-- Models `redis.get(k)`: the stored value, or `none` when the key is
absent or its TTL has elapsed. -/
def RedisStore.get (r : RedisStore) (k : String) : Option Nat :=
  match r.entries.find? (fun e => e.key = k) with
  | none => none
  | some e =>
    match e.deadline with
    | none => some e.val
    | some d => if r.now < d then some e.val else none

/-- Models `redis.delete(k)`. -/
def RedisStore.del (r : RedisStore) (k : String) : RedisStore :=
  { r with entries := r.entries.filter (fun e => e.key ≠ k) }

/-- The wall clock advancing by `t` seconds; keys whose deadline has passed
become absent for `get`. -/
def RedisStore.advance (r : RedisStore) (t : Nat) : RedisStore :=
  { r with now := r.now + t }

/-- The per-proxy assignment key of `BaseTunnel`, the prefixed string
`pre:proxy:pname:port`. -/
def assignedPortKey (pre pname : String) : String :=
  pre ++ ":proxy:" ++ pname ++ ":port"

/-- Embeds `BaseTunnel._reserve_port(port)`: `sadd` the port into the used set,
`set` the proxy assignment key to the port, and `expire` it after 86400
seconds. -/
def reservePort (pre pname : String) (r : RedisStore) (port : Nat) : RedisStore :=
  ((r.sadd port).setKey (assignedPortKey pre pname) port).expire
    (assignedPortKey pre pname) 86400

/-- Embeds `BaseTunnel._release_port(port)`: `srem` the port from the used set and
`delete` the proxy assignment key. -/
def releasePort (pre pname : String) (r : RedisStore) (port : Nat) : RedisStore :=
  (r.srem port).del (assignedPortKey pre pname)

/-- Embeds `BaseTunnel._get_assigned_port()`: read the proxy assignment key. -/
def getAssignedPort (pre pname : String) (r : RedisStore) : Option Nat :=
  r.get (assignedPortKey pre pname)

/-- The exception message of `_get_available_port` when no port is free. -/
def exhaustedMsg : String := "没有可用的远程端口"

/-- Embeds `[port for port in allowed_ports if port not in used_ports]`. -/
def availablePorts (allowed : List Nat) (r : RedisStore) : List Nat :=
  allowed.filter (fun p => p ∉ r.usedPorts)

/-- Models `random.choice(l)` by an arbitrary index `choice` reduced
modulo the list length. -/
def chooseFrom (l : List Nat) (choice : Nat) : Nat :=
  l.getD (choice % l.length) 0

/-- The random-selection block of `_get_available_port`: filter the free
allowed ports, raise when the list is empty, else `random.choice` one and
reserve it. -/
def allocFallback (pre pname : String) (allowed : List Nat) (choice : Nat)
    (r : RedisStore) : Except String (Nat × RedisStore) :=
  if (availablePorts allowed r).isEmpty then Except.error exhaustedMsg
  else
    Except.ok (chooseFrom (availablePorts allowed r) choice,
      reservePort pre pname r (chooseFrom (availablePorts allowed r) choice))

/-- Embeds `BaseTunnel._get_available_port(suggested_port)`: read the used set; if
a suggested port is given and is unused and allowed, reserve and return
it; otherwise run the random-selection block; raise `ValueError` when no
port is free. -/
def getAvailablePort (pre pname : String) (allowed : List Nat) (choice : Nat)
    (suggested : Option Nat) (r : RedisStore) : Except String (Nat × RedisStore) :=
  match suggested with
  | some s =>
    if s ∉ r.usedPorts ∧ s ∈ allowed then Except.ok (s, reservePort pre pname r s)
    else allocFallback pre pname allowed choice r
  | none => allocFallback pre pname allowed choice r

/-- Models `FRP_ALLOWED_PORTS` (default "10000-30000") parsed by
`FrpTunnel.allowed_remote_ports`: `range(start, end + 1)`. -/
def frpAllowedPorts (lo hi : Nat) : List Nat :=
  List.range' lo (hi + 1 - lo)

/-- Python truthiness of `Optional[int]`: `None` and `0` are falsy. -/
def truthy : Option Nat → Bool
  | none => false
  | some n => n ≠ 0

/-- Embeds `FrpTunnel.get_remote_port()`: returns the assigned port when one is
set (and truthy); otherwise allocates, suggesting the `FRP_REMOTE_PORT`
environment value (default 6000). -/
def frpGetRemotePort (pname : String) (lo hi envSuggested choice : Nat)
    (r : RedisStore) : Except String (Nat × RedisStore) :=
  let assigned := getAssignedPort "frp" pname r
  if truthy assigned then Except.ok (assigned.getD 0, r)
  else getAvailablePort "frp" pname (frpAllowedPorts lo hi) choice
    (some envSuggested) r

/-- Iterates `BaseTunnel._get_available_port` with no suggested
port (one `random.choice` index per call), threading the store. -/
def allocateSeq (pre pname : String) (allowed : List Nat) :
    List Nat → RedisStore → Except String (List Nat × RedisStore)
  | [], r => Except.ok ([], r)
  | c :: cs, r =>
    match getAvailablePort pre pname allowed c none r with
    | Except.error e => Except.error e
    | Except.ok (p, r1) =>
      match allocateSeq pre pname allowed cs r1 with
      | Except.error e => Except.error e
      | Except.ok (ps, r2) => Except.ok (p :: ps, r2)

/-- A child-process handle (`subprocess.Popen` result): whether `poll()`
still returns `None` (alive), and whether the process obeys `terminate()`
within the 5-second grace period (otherwise `stop` must `kill()`). -/
structure Proc where
  alive : Bool
  obeysTerminate : Bool
deriving DecidableEq

/-- The in-memory state of one `FrpTunnel` instance: the shared store, the
owned process handle `self._process`, and the `cached_property` cache of
`remote_port` (`none` = not yet computed). -/
structure FrpState where
  store : RedisStore
  process : Option Proc
  remotePortCache : Option (Option Nat)
deriving DecidableEq

/-- Embeds `BaseTunnel.is_running`: `self._process is not None and
self._process.poll() is None`. -/
def frpIsRunning (s : FrpState) : Bool :=
  match s.process with
  | none => false
  | some p => p.alive

/-- Embeds `FrpTunnel.start()`: if `self._process is None`, build the child's
environment (`_build_env` calls `get_remote_port`, which may allocate),
spawn the process, record the handle, log (the log line calls
`get_remote_port` again) and return `True`; otherwise warn and return
`False`. An exception during port resolution is caught and yields
`False`. `newProc` is the handle `subprocess.Popen` returns; `choice` and
`choice2` feed the two potential `random.choice` calls. -/
def frpStart (pname : String) (lo hi envSuggested choice choice2 : Nat)
    (newProc : Proc) (s : FrpState) : Bool × FrpState :=
  match s.process with
  | some _ => (false, s)
  | none =>
    match frpGetRemotePort pname lo hi envSuggested choice s.store with
    | Except.error _ => (false, s)
    | Except.ok (_, r1) =>
      let s1 : FrpState := { store := r1, process := some newProc,
                             remotePortCache := s.remotePortCache }
      match frpGetRemotePort pname lo hi envSuggested choice2 r1 with
      | Except.error _ => (false, s1)
      | Except.ok (_, r2) => (true, { s1 with store := r2 })

/-- Embeds `FrpTunnel.stop()`: if a process handle exists, `terminate()`, wait up
to 5 seconds, `kill()` on timeout, then clear the handle; afterwards read
the assigned port and release it when truthy; return `True`. -/
def frpStop (pname : String) (s : FrpState) : Bool × FrpState :=
  let s1 : FrpState :=
    match s.process with
    | none => s
    | some _ => { s with process := none }
  let cur := getAssignedPort "frp" pname s1.store
  if truthy cur then
    (true, { s1 with store := releasePort "frp" pname s1.store (cur.getD 0) })
  else (true, s1)

/-- Reading `BaseTunnel.remote_port` (a `functools.cached_property`): on
the first read, compute `get_remote_port()` when `is_running` else `None`,
and cache the outcome; later reads return the cached value. An exception
during computation propagates and leaves the cache unset. -/
def frpRemotePortRead (pname : String) (lo hi envSuggested choice : Nat)
    (s : FrpState) : Except String (Option Nat × FrpState) :=
  match s.remotePortCache with
  | some v => Except.ok (v, s)
  | none =>
    if frpIsRunning s then
      match frpGetRemotePort pname lo hi envSuggested choice s.store with
      | Except.error e => Except.error e
      | Except.ok (p, r) =>
        Except.ok (some p, { s with store := r, remotePortCache := some (some p) })
    else Except.ok (none, { s with remotePortCache := some none })

/-- A Python class as seen by `BaseRegistry.getImpls`: its defining module,
its name, and its set of unimplemented abstract methods
(`__abstractmethods__`; empty for concrete classes). -/
structure PyCls where
  module : String
  name : String
  abstractMethods : List String
deriving DecidableEq

/-- The dedup identity of `getImpls`: the module path and the class name
joined by a dot. -/
def clsId (c : PyCls) : String := c.module ++ "." ++ c.name

/-- The loop body of `BaseRegistry.getImpls` over the recursively collected
subclasses: skip a class whose identity was already seen, then skip it
when `__abstractmethods__` is non-empty, else emit a descriptor. -/
def getImplsLoop : List PyCls → List String → List PyCls → List PyCls
  | [], _, acc => acc.reverse
  | c :: rest, seen, acc =>
    if clsId c ∈ seen then getImplsLoop rest seen acc
    else if c.abstractMethods.isEmpty then getImplsLoop rest (clsId c :: seen) (c :: acc)
    else getImplsLoop rest (clsId c :: seen) acc

/-- Embeds `BaseRegistry.getImpls`: the descriptor list produced from the
subclass traversal (which may present the same class several times when it
is reachable through several inheritance edges). -/
def getImpls (subclasses : List PyCls) : List PyCls :=
  getImplsLoop subclasses [] []

/-- A concrete subclass traversal presenting the FRP implementation twice
(two inheritance edges) together with the abstract base, used to
instantiate the registry theorem. -/
def c9classes : List PyCls :=
  [⟨"impls.tunnel.frp", "FrpTunnel", []⟩,
   ⟨"impls.tunnel.frp", "FrpTunnel", []⟩,
   ⟨"base.tunnel", "BaseTunnel", ["start", "stop"]⟩]

/-- A stopped-looking store holding a live lease on port 10000, owned by a
process that ignores `terminate()`, used to instantiate the stop theorem. -/
def c5state : FrpState :=
  ⟨reservePort "frp" "t" ⟨∅, [], 0⟩ 10000, some ⟨true, false⟩, none⟩

/-- The state of a fresh instance after its `remote_port` was first read
while stopped (caching `None`) and `start()` then succeeded: used by the
remote-port counterexample. -/
def c7started : FrpState :=
  (frpStart "t" 10000 10000 6000 0 0 ⟨true, true⟩
    ⟨⟨∅, [], 0⟩, none, some none⟩).2

lemma usedPorts_reservePort (pre pname : String) (r : RedisStore) (p : Nat) :
    (reservePort pre pname r p).usedPorts = insert p r.usedPorts := rfl

lemma getAssignedPort_reservePort (pre pname : String) (r : RedisStore) (p : Nat) :
    getAssignedPort pre pname (reservePort pre pname r p) = some p := by
  simp only [getAssignedPort, reservePort, RedisStore.setKey, RedisStore.expire,
    RedisStore.sadd, RedisStore.get]
  simp [List.find?]

lemma getD_mod_mem (l : List Nat) (c : Nat) (h : l ≠ []) :
    l.getD (c % l.length) 0 ∈ l := by
  have hlen : 0 < l.length := List.length_pos.mpr h
  have hlt : c % l.length < l.length := Nat.mod_lt _ hlen
  rw [List.getD_eq_getElem _ _ hlt]
  exact List.getElem_mem hlt

lemma chooseFrom_mem (l : List Nat) (c : Nat) (h : l ≠ []) : chooseFrom l c ∈ l :=
  getD_mod_mem l c h

lemma mem_availablePorts {allowed : List Nat} {r : RedisStore} {p : Nat} :
    p ∈ availablePorts allowed r ↔ p ∈ allowed ∧ p ∉ r.usedPorts := by
  simp [availablePorts, List.mem_filter]

lemma allocFallback_ok {pre pname : String} {allowed : List Nat} {choice : Nat}
    {r : RedisStore} {p : Nat} {r' : RedisStore}
    (h : allocFallback pre pname allowed choice r = Except.ok (p, r')) :
    p ∈ allowed ∧ p ∉ r.usedPorts ∧ r' = reservePort pre pname r p := by
  unfold allocFallback at h
  by_cases he : (availablePorts allowed r).isEmpty
  · rw [if_pos he] at h
    exact absurd h (by simp)
  · rw [if_neg he] at h
    have hne : availablePorts allowed r ≠ [] := by
      intro hnil
      rw [hnil] at he
      exact he rfl
    have hmem := chooseFrom_mem (availablePorts allowed r) choice hne
    obtain ⟨h1, h2⟩ := mem_availablePorts.mp hmem
    simp only [Except.ok.injEq, Prod.mk.injEq] at h
    obtain ⟨h3, h4⟩ := h
    subst h3
    subst h4
    exact ⟨h1, h2, rfl⟩

lemma allocFallback_succeeds {pre pname : String} {allowed : List Nat} {choice : Nat}
    {r : RedisStore} (hne : availablePorts allowed r ≠ []) :
    allocFallback pre pname allowed choice r =
      Except.ok (chooseFrom (availablePorts allowed r) choice,
        reservePort pre pname r (chooseFrom (availablePorts allowed r) choice)) := by
  unfold allocFallback
  rw [if_neg (by simpa [List.isEmpty_iff] using hne)]

lemma allocFallback_exhausted {pre pname : String} {allowed : List Nat} {choice : Nat}
    {r : RedisStore} (he : availablePorts allowed r = []) :
    allocFallback pre pname allowed choice r = Except.error exhaustedMsg := by
  unfold allocFallback
  rw [if_pos (by simp [he])]

lemma getAvailablePort_ok {pre pname : String} {allowed : List Nat} {choice : Nat}
    {suggested : Option Nat} {r : RedisStore} {p : Nat} {r' : RedisStore}
    (h : getAvailablePort pre pname allowed choice suggested r = Except.ok (p, r')) :
    p ∈ allowed ∧ p ∉ r.usedPorts ∧ r' = reservePort pre pname r p := by
  cases suggested with
  | none => exact allocFallback_ok h
  | some s =>
    simp only [getAvailablePort] at h
    by_cases hc : s ∉ r.usedPorts ∧ s ∈ allowed
    · rw [if_pos hc] at h
      simp only [Except.ok.injEq, Prod.mk.injEq] at h
      obtain ⟨h3, h4⟩ := h
      subst h3
      subst h4
      exact ⟨hc.2, hc.1, rfl⟩
    · rw [if_neg hc] at h
      exact allocFallback_ok h

/-- C1: `_get_available_port` returns an accepted suggested port after
reserving it; any port it returns is free and allowed beforehand; the call
succeeds whenever a free allowed port exists; and the returned port is in
the used-port set of the resulting store. -/
theorem allocate_spec_C1 (pre pname : String) (allowed : List Nat) (choice : Nat)
    (suggested : Option Nat) (r : RedisStore) :
    (∀ s, suggested = some s → s ∉ r.usedPorts → s ∈ allowed →
      getAvailablePort pre pname allowed choice suggested r =
        Except.ok (s, reservePort pre pname r s)) ∧
    (∀ p r', getAvailablePort pre pname allowed choice suggested r = Except.ok (p, r') →
      (p ∈ allowed ∧ p ∉ r.usedPorts) ∧ p ∈ r'.usedPorts) ∧
    (availablePorts allowed r ≠ [] →
      ∃ p r', getAvailablePort pre pname allowed choice suggested r = Except.ok (p, r')) := by
  refine ⟨?_, ?_, ?_⟩
  · intro s hs h1 h2
    subst hs
    simp only [getAvailablePort]
    rw [if_pos ⟨h1, h2⟩]
  · intro p r' h
    obtain ⟨h1, h2, h3⟩ := getAvailablePort_ok h
    subst h3
    exact ⟨⟨h1, h2⟩, by rw [usedPorts_reservePort]; exact Finset.mem_insert_self _ _⟩
  · intro hne
    cases suggested with
    | none => exact ⟨_, _, allocFallback_succeeds hne⟩
    | some s =>
      simp only [getAvailablePort]
      by_cases hc : s ∉ r.usedPorts ∧ s ∈ allowed
      · rw [if_pos hc]
        exact ⟨s, _, rfl⟩
      · rw [if_neg hc]
        exact ⟨_, _, allocFallback_succeeds hne⟩

theorem allocate_spec_C1_witness :
    getAvailablePort "frp" "t" [10000, 10001] 0 (some 10000) ⟨∅, [], 0⟩ =
      Except.ok (10000, reservePort "frp" "t" ⟨∅, [], 0⟩ 10000) :=
  (allocate_spec_C1 "frp" "t" [10000, 10001] 0 (some 10000) ⟨∅, [], 0⟩).1 10000 rfl
    (by decide) (by decide)

lemma availablePorts_ne_nil_iff {allowed : List Nat} {r : RedisStore} :
    availablePorts allowed r ≠ [] ↔ (allowed.toFinset \ r.usedPorts).Nonempty := by
  constructor
  · intro h
    obtain ⟨p, hp⟩ := List.exists_mem_of_ne_nil _ h
    obtain ⟨h1, h2⟩ := mem_availablePorts.mp hp
    exact ⟨p, Finset.mem_sdiff.mpr ⟨List.mem_toFinset.mpr h1, h2⟩⟩
  · rintro ⟨p, hp⟩ hnil
    obtain ⟨h1, h2⟩ := Finset.mem_sdiff.mp hp
    have : p ∈ availablePorts allowed r :=
      mem_availablePorts.mpr ⟨List.mem_toFinset.mp h1, h2⟩
    rw [hnil] at this
    exact absurd this (List.not_mem_nil p)

lemma allocateSeq_complete (pre pname : String) (allowed : List Nat) :
    ∀ (cs : List Nat) (r : RedisStore),
      cs.length ≤ (allowed.toFinset \ r.usedPorts).card →
      ∃ ps r', allocateSeq pre pname allowed cs r = Except.ok (ps, r') ∧
        ps.length = cs.length ∧ ps.Nodup ∧
        (∀ p ∈ ps, p ∈ allowed ∧ p ∉ r.usedPorts) ∧
        r'.usedPorts = r.usedPorts ∪ ps.toFinset := by
  intro cs
  induction cs with
  | nil =>
    intro r _
    exact ⟨[], r, rfl, rfl, List.nodup_nil, by simp, by simp⟩
  | cons c cs ih =>
    intro r hcard
    have hpos : 0 < (allowed.toFinset \ r.usedPorts).card :=
      lt_of_lt_of_le (Nat.succ_pos _) (by simpa using hcard)
    have hne : availablePorts allowed r ≠ [] :=
      availablePorts_ne_nil_iff.mpr (Finset.card_pos.mp hpos)
    have hok : getAvailablePort pre pname allowed c none r =
        Except.ok (chooseFrom (availablePorts allowed r) c,
          reservePort pre pname r (chooseFrom (availablePorts allowed r) c)) := by
      simp only [getAvailablePort]
      exact allocFallback_succeeds hne
    set p := chooseFrom (availablePorts allowed r) c with hp
    obtain ⟨hpa, hpu⟩ := mem_availablePorts.mp (chooseFrom_mem _ c hne)
    set r1 := reservePort pre pname r p with hr1
    have hused1 : r1.usedPorts = insert p r.usedPorts := rfl
    have hstep : cs.length ≤ (allowed.toFinset \ r1.usedPorts).card := by
      rw [hused1, Finset.sdiff_insert, Finset.card_erase_of_mem
        (Finset.mem_sdiff.mpr ⟨List.mem_toFinset.mpr hpa, hpu⟩)]
      have hc2 : cs.length + 1 ≤ (allowed.toFinset \ r.usedPorts).card := by
        simpa using hcard
      omega
    obtain ⟨ps, r2, hseq, hlen, hnd, hmem, hu2⟩ := ih r1 hstep
    refine ⟨p :: ps, r2, ?_, by simp [hlen], ?_, ?_, ?_⟩
    · simp only [allocateSeq, hok, hseq]
    · refine List.nodup_cons.mpr ⟨?_, hnd⟩
      intro hpin
      have := (hmem p hpin).2
      rw [hused1] at this
      exact this (Finset.mem_insert_self _ _)
    · intro q hq
      rcases List.mem_cons.mp hq with hq1 | hq2
      · subst hq1
        exact ⟨hpa, hpu⟩
      · obtain ⟨hq3, hq4⟩ := hmem q hq2
        rw [hused1] at hq4
        exact ⟨hq3, fun hc => hq4 (Finset.mem_insert_of_mem hc)⟩
    · rw [hu2, hused1, List.toFinset_cons]
      rw [Finset.insert_union, Finset.union_insert]

/-- C2: with an empty used-port set and the allowed range of size `n`,
`n` suggestion-less allocations (any random choices) all succeed with
pairwise-distinct ports exhausting the range, and one further allocation
raises the exhaustion error. -/
theorem allocate_exhaust_C2 (pre pname : String) (lo n : Nat) (cs : List Nat)
    (r : RedisStore) (hlen : cs.length = n) (hused : r.usedPorts = ∅) :
    ∃ ps r', allocateSeq pre pname (List.range' lo n) cs r = Except.ok (ps, r') ∧
      ps.length = n ∧ ps.Nodup ∧ (∀ p ∈ ps, p ∈ List.range' lo n) ∧
      ps.toFinset = (List.range' lo n).toFinset ∧
      ∀ c, getAvailablePort pre pname (List.range' lo n) c none r' =
        Except.error exhaustedMsg := by
  have hnd : (List.range' lo n).Nodup := List.nodup_range' lo n
  have hcardA : (List.range' lo n).toFinset.card = n := by
    rw [List.toFinset_card_of_nodup hnd, List.length_range']
  have hcard : cs.length ≤ ((List.range' lo n).toFinset \ r.usedPorts).card := by
    rw [hused, Finset.sdiff_empty, hcardA, hlen]
  obtain ⟨ps, r', hseq, hlen2, hnd2, hmem, hu⟩ :=
    allocateSeq_complete pre pname (List.range' lo n) cs r hcard
  have hsub : ps.toFinset ⊆ (List.range' lo n).toFinset := by
    intro q hq
    exact List.mem_toFinset.mpr (hmem q (List.mem_toFinset.mp hq)).1
  have hfin : ps.toFinset = (List.range' lo n).toFinset := by
    refine Finset.eq_of_subset_of_card_le hsub ?_
    rw [hcardA, List.toFinset_card_of_nodup hnd2, hlen2, hlen]
  have hused' : r'.usedPorts = (List.range' lo n).toFinset := by
    rw [hu, hused, hfin, Finset.empty_union]
  refine ⟨ps, r', hseq, hlen ▸ hlen2, hnd2, fun p hp => (hmem p hp).1, hfin, ?_⟩
  intro c
  have hav : availablePorts (List.range' lo n) r' = [] := by
    rw [availablePorts, List.filter_eq_nil_iff]
    intro a ha
    simp only [decide_eq_true_eq, Decidable.not_not]
    rw [hused']
    exact List.mem_toFinset.mpr ha
  simp only [getAvailablePort]
  exact allocFallback_exhausted hav

theorem allocate_exhaust_C2_witness :
    ∃ ps r', allocateSeq "frp" "t" (List.range' 10000 2) [0, 0] ⟨∅, [], 0⟩ =
        Except.ok (ps, r') ∧
      ps.length = 2 ∧ ps.Nodup ∧ (∀ p ∈ ps, p ∈ List.range' 10000 2) ∧
      ps.toFinset = (List.range' 10000 2).toFinset ∧
      ∀ c, getAvailablePort "frp" "t" (List.range' 10000 2) c none r' =
        Except.error exhaustedMsg :=
  allocate_exhaust_C2 "frp" "t" 10000 2 [0, 0] ⟨∅, [], 0⟩ rfl rfl

lemma getAssignedPort_releasePort (pre pname : String) (r : RedisStore) (p : Nat) :
    getAssignedPort pre pname (releasePort pre pname r p) = none := by
  simp only [getAssignedPort, releasePort, RedisStore.srem, RedisStore.del, RedisStore.get]
  have : (r.entries.filter (fun e => e.key ≠ assignedPortKey pre pname)).find?
      (fun e => e.key = assignedPortKey pre pname) = none := by
    rw [List.find?_eq_none]
    intro e he
    have := (List.mem_filter.mp he).2
    simpa using this
  rw [this]

lemma usedPorts_releasePort (pre pname : String) (r : RedisStore) (p : Nat) :
    (releasePort pre pname r p).usedPorts = r.usedPorts.erase p := rfl

/-- C3: the TTL written by `_reserve_port` applies only to the proxy→port
key, never to the `used_ports` set member: after the 86400-second TTL
elapses with no release, the proxy mapping is gone, yet the leased port is
still in the used set and a fresh allocation over a range consisting of
that port alone raises the exhaustion error instead of reusing it. -/
theorem lease_ttl_C3 :
    getAssignedPort "frp" "t"
      ((reservePort "frp" "t" ⟨∅, [], 0⟩ 10000).advance 86400) = none ∧
    10000 ∈ ((reservePort "frp" "t" ⟨∅, [], 0⟩ 10000).advance 86400).usedPorts ∧
    getAvailablePort "frp" "t" (frpAllowedPorts 10000 10000) 0 none
      ((reservePort "frp" "t" ⟨∅, [], 0⟩ 10000).advance 86400) =
      Except.error exhaustedMsg := by
  refine ⟨rfl, by decide, rfl⟩

/-- C5: when a process handle exists — whether or not the process obeys
`terminate()` within the grace period — `stop()` returns true, clears the
handle (so `is_running` is false), and releases the assigned lease: the
proxy mapping reads back as `None` and the previously assigned port is no
longer in the used-port set. -/
theorem stop_clears_C5 (pname : String) (s : FrpState) (q : Proc)
    (hq : s.process = some q)
    (hpos : ∀ p, getAssignedPort "frp" pname s.store = some p → 0 < p) :
    (frpStop pname s).1 = true ∧
    (frpStop pname s).2.process = none ∧
    frpIsRunning (frpStop pname s).2 = false ∧
    getAssignedPort "frp" pname (frpStop pname s).2.store = none ∧
    ∀ p, getAssignedPort "frp" pname s.store = some p →
      p ∉ (frpStop pname s).2.store.usedPorts := by
  cases hass : getAssignedPort "frp" pname s.store with
  | none =>
    have hstop : frpStop pname s = (true, ⟨s.store, none, s.remotePortCache⟩) := by
      simp only [frpStop, hq, hass, truthy, Bool.false_eq_true, if_false]
    rw [hstop]
    exact ⟨rfl, rfl, rfl, hass, fun p hp => absurd (hass ▸ hp) (by simp [hass])⟩
  | some p =>
    have hp0 : 0 < p := hpos p hass
    have htr : truthy (some p) = true := by
      simp only [truthy, ne_eq, decide_eq_true_eq]
      omega
    have hstop : frpStop pname s =
        (true, ⟨releasePort "frp" pname s.store p, none, s.remotePortCache⟩) := by
      simp only [frpStop, hq, hass, htr, if_true, Option.getD_some]
    rw [hstop]
    refine ⟨rfl, rfl, rfl, getAssignedPort_releasePort "frp" pname s.store p, ?_⟩
    intro p2 hp2
    cases hp2
    show p ∉ (releasePort "frp" pname s.store p).usedPorts
    rw [usedPorts_releasePort]
    exact Finset.not_mem_erase _ _

theorem stop_clears_C5_witness :
    (frpStop "t" c5state).1 = true ∧
    (frpStop "t" c5state).2.process = none ∧
    frpIsRunning (frpStop "t" c5state).2 = false ∧
    getAssignedPort "frp" "t" (frpStop "t" c5state).2.store = none ∧
    ∀ p, getAssignedPort "frp" "t" c5state.store = some p →
      p ∉ (frpStop "t" c5state).2.store.usedPorts :=
  stop_clears_C5 "t" c5state ⟨true, false⟩ rfl (by
    intro p h
    rw [show c5state.store = reservePort "frp" "t" ⟨∅, [], 0⟩ 10000 from rfl,
      getAssignedPort_reservePort] at h
    injection h with h2
    omega)

/-- C4 counterexample: an instance whose recorded child process has died
(`poll()` non-`None`) is not "already running", yet `start()` still
returns false and does not spawn: the guard is `self._process is None`,
not `is_running`. -/
theorem start_counterexample_C4 :
    frpIsRunning ⟨⟨∅, [], 0⟩, some ⟨false, true⟩, none⟩ = false ∧
    frpStart "t" 10000 10001 6000 0 0 ⟨true, true⟩
        ⟨⟨∅, [], 0⟩, some ⟨false, true⟩, none⟩ =
      (false, ⟨⟨∅, [], 0⟩, some ⟨false, true⟩, none⟩) :=
  ⟨rfl, rfl⟩

/-- C4 (amended): `start()` returns false and changes nothing exactly when
a process handle is recorded, alive or dead; when no handle is recorded
and remote-port resolution succeeds, it spawns, records the new handle and
returns true. -/
theorem start_spec_C4 (pname : String) (lo hi es c c2 : Nat) (np : Proc)
    (s : FrpState) :
    (∀ q, s.process = some q →
      frpStart pname lo hi es c c2 np s = (false, s)) ∧
    (s.process = none → ∀ p r1 p2 r2,
      frpGetRemotePort pname lo hi es c s.store = Except.ok (p, r1) →
      frpGetRemotePort pname lo hi es c2 r1 = Except.ok (p2, r2) →
      frpStart pname lo hi es c c2 np s =
        (true, ⟨r2, some np, s.remotePortCache⟩)) := by
  constructor
  · intro q hq
    simp only [frpStart, hq]
  · intro hn p r1 p2 r2 h1 h2
    simp only [frpStart, hn, h1, h2]

theorem start_spec_C4_witness :
    frpStart "t" 10000 10000 6000 0 0 ⟨true, true⟩ ⟨⟨∅, [], 0⟩, none, none⟩ =
      (true, ⟨reservePort "frp" "t" ⟨∅, [], 0⟩ 10000, some ⟨true, true⟩, none⟩) :=
  (start_spec_C4 "t" 10000 10000 6000 0 0 ⟨true, true⟩
    ⟨⟨∅, [], 0⟩, none, none⟩).2 rfl
    10000 (reservePort "frp" "t" ⟨∅, [], 0⟩ 10000)
    10000 (reservePort "frp" "t" ⟨∅, [], 0⟩ 10000) rfl rfl

/-- C6 counterexample: `stop()` on an already-stopped instance (no process
handle) that still holds a lease is not a no-op on the shared store: it
returns true but deletes the proxy mapping and removes the port from the
used set. -/
theorem stop_noop_counterexample_C6 :
    (⟨reservePort "frp" "t" ⟨∅, [], 0⟩ 10000, none, none⟩ : FrpState).process
        = none ∧
    getAssignedPort "frp" "t"
      (⟨reservePort "frp" "t" ⟨∅, [], 0⟩ 10000, none, none⟩ : FrpState).store
        = some 10000 ∧
    (frpStop "t" ⟨reservePort "frp" "t" ⟨∅, [], 0⟩ 10000, none, none⟩).1 = true ∧
    getAssignedPort "frp" "t"
      (frpStop "t" ⟨reservePort "frp" "t" ⟨∅, [], 0⟩ 10000, none, none⟩).2.store
        = none ∧
    10000 ∉
      (frpStop "t" ⟨reservePort "frp" "t" ⟨∅, [], 0⟩ 10000, none, none⟩).2.store.usedPorts := by
  refine ⟨rfl, rfl, rfl, rfl, by decide⟩

/-- C6 (amended): `stop()` on an already-stopped instance returns true,
spawns or kills no process and leaves the handle absent; the local state
and store are unchanged exactly when the proxy holds no current lease —
when a (nonzero) lease is assigned, stop still releases it from the
shared store. -/
theorem stop_stopped_C6 (pname : String) (s : FrpState) (h : s.process = none) :
    (frpStop pname s).1 = true ∧ (frpStop pname s).2.process = none ∧
    (getAssignedPort "frp" pname s.store = none → frpStop pname s = (true, s)) ∧
    (∀ p, getAssignedPort "frp" pname s.store = some p → p ≠ 0 →
      frpStop pname s = (true, ⟨releasePort "frp" pname s.store p, none,
        s.remotePortCache⟩)) := by
  refine ⟨?_, ?_, ?_, ?_⟩
  · simp only [frpStop, h]
    cases hass : getAssignedPort "frp" pname s.store with
    | none => simp [truthy]
    | some p => cases hp : truthy (some p) <;> simp [hp]
  · simp only [frpStop, h]
    cases hass : getAssignedPort "frp" pname s.store with
    | none => simp [truthy, h]
    | some p => cases hp : truthy (some p) <;> simp [hp, h]
  · intro hass
    simp only [frpStop, h, hass, truthy, Bool.false_eq_true, if_false]
  · intro p hass hp0
    have htr : truthy (some p) = true := by
      simp only [truthy, ne_eq, decide_eq_true_eq]
      exact hp0
    simp only [frpStop, h, hass, htr, if_true, Option.getD_some]

theorem stop_stopped_C6_witness :
    frpStop "t" ⟨⟨∅, [], 0⟩, none, none⟩ = (true, ⟨⟨∅, [], 0⟩, none, none⟩) :=
  (stop_stopped_C6 "t" ⟨⟨∅, [], 0⟩, none, none⟩ rfl).2.2.1 rfl

/-- C7 counterexample: `remote_port` is a `functools.cached_property`.
Reading it on a stopped instance caches `None`; after a successful
`start()` the instance is running and the backend resolution yields
10000, yet reading `remote_port` still returns the cached `None` — the
claimed per-read recomputation across stop/start transitions fails. -/
theorem remote_port_counterexample_C7 :
    frpRemotePortRead "t" 10000 10000 6000 0 ⟨⟨∅, [], 0⟩, none, none⟩ =
      Except.ok (none, ⟨⟨∅, [], 0⟩, none, some none⟩) ∧
    (frpStart "t" 10000 10000 6000 0 0 ⟨true, true⟩
      ⟨⟨∅, [], 0⟩, none, some none⟩).1 = true ∧
    frpIsRunning c7started = true ∧
    frpGetRemotePort "t" 10000 10000 6000 0 c7started.store =
      Except.ok (10000, c7started.store) ∧
    frpRemotePortRead "t" 10000 10000 6000 0 c7started =
      Except.ok (none, c7started) :=
  ⟨rfl, rfl, rfl, rfl, rfl⟩

/-- C7 (amended): `remote_port` is computed at most once: a cached value
is returned as-is on every later read regardless of the running state; on
the first read it yields `None` when not running, else the backend
resolution's result, which it caches. -/
theorem remote_port_spec_C7 (pname : String) (lo hi es c : Nat) (s : FrpState) :
    (∀ v, s.remotePortCache = some v →
      frpRemotePortRead pname lo hi es c s = Except.ok (v, s)) ∧
    (s.remotePortCache = none → frpIsRunning s = false →
      frpRemotePortRead pname lo hi es c s =
        Except.ok (none, ⟨s.store, s.process, some none⟩)) ∧
    (s.remotePortCache = none → frpIsRunning s = true →
      ∀ p r, frpGetRemotePort pname lo hi es c s.store = Except.ok (p, r) →
        frpRemotePortRead pname lo hi es c s =
          Except.ok (some p, ⟨r, s.process, some (some p)⟩)) := by
  refine ⟨?_, ?_, ?_⟩
  · intro v hv
    simp only [frpRemotePortRead, hv]
  · intro hc hrun
    simp only [frpRemotePortRead, hc, hrun, Bool.false_eq_true, if_false]
  · intro hc hrun p r h
    simp only [frpRemotePortRead, hc, hrun, if_true, h]

theorem remote_port_spec_C7_witness :
    frpRemotePortRead "t" 10000 10000 6000 0 ⟨⟨∅, [], 0⟩, none, some (some 7)⟩ =
      Except.ok (some 7, ⟨⟨∅, [], 0⟩, none, some (some 7)⟩) :=
  (remote_port_spec_C7 "t" 10000 10000 6000 0
    ⟨⟨∅, [], 0⟩, none, some (some 7)⟩).1 (some 7) rfl

/-- C8 counterexample: with port 10000 leased to the proxy, releasing the
never-reserved port 10001 is not a no-op: the proxy's mapping is deleted,
so `assignedPort` flips from `some 10000` to `none`. -/
theorem release_counterexample_C8 :
    10001 ∉ (reservePort "frp" "t" ⟨∅, [], 0⟩ 10000).usedPorts ∧
    getAssignedPort "frp" "t" (reservePort "frp" "t" ⟨∅, [], 0⟩ 10000) =
      some 10000 ∧
    getAssignedPort "frp" "t"
      (releasePort "frp" "t" (reservePort "frp" "t" ⟨∅, [], 0⟩ 10000) 10001) =
      none := by
  refine ⟨by decide, rfl, rfl⟩

/-- C8 (amended): `_release_port` removes the port from the used set and
deletes the proxy's mapping, after which `assignedPort` reads `None`; it
raises no error on a never-reserved port and then leaves the used set
unchanged, but it still deletes the proxy's mapping — it is a complete
no-op only when the proxy also holds no mapping entry. -/
theorem release_spec_C8 (pre pname : String) (r : RedisStore) (p : Nat) :
    (releasePort pre pname r p).usedPorts = r.usedPorts.erase p ∧
    getAssignedPort pre pname (releasePort pre pname r p) = none ∧
    (p ∉ r.usedPorts → (releasePort pre pname r p).usedPorts = r.usedPorts) ∧
    (r.entries.find? (fun e => e.key = assignedPortKey pre pname) = none →
      p ∉ r.usedPorts → releasePort pre pname r p = r) := by
  refine ⟨rfl, getAssignedPort_releasePort pre pname r p, ?_, ?_⟩
  · intro hp
    rw [usedPorts_releasePort, Finset.erase_eq_of_not_mem hp]
  · intro hfind hp
    have hent : r.entries.filter (fun e => e.key ≠ assignedPortKey pre pname) =
        r.entries := by
      rw [List.filter_eq_self]
      intro e he
      rw [List.find?_eq_none] at hfind
      simpa using hfind e he
    show (⟨r.usedPorts.erase p,
      r.entries.filter (fun e => e.key ≠ assignedPortKey pre pname), r.now⟩ :
        RedisStore) = r
    rw [hent, Finset.erase_eq_of_not_mem hp]

theorem release_spec_C8_witness :
    releasePort "frp" "t" ⟨∅, [], 0⟩ 10001 = ⟨∅, [], 0⟩ :=
  (release_spec_C8 "frp" "t" ⟨∅, [], 0⟩ 10001).2.2.2 rfl (by decide)

lemma getImplsLoop_invariant :
    ∀ (cs : List PyCls) (seen : List String) (acc : List PyCls),
      (∀ c ∈ acc, clsId c ∈ seen) →
      acc.Pairwise (fun a b => clsId a ≠ clsId b) →
      (∀ c ∈ acc, c.abstractMethods = []) →
      (getImplsLoop cs seen acc).Pairwise (fun a b => clsId a ≠ clsId b) ∧
      ∀ c ∈ getImplsLoop cs seen acc, c.abstractMethods = [] := by
  intro cs
  induction cs with
  | nil =>
    intro seen acc hseen hpw habs
    constructor
    · rw [getImplsLoop, List.pairwise_reverse]
      exact hpw.imp (fun h => Ne.symm h)
    · intro c hc
      rw [getImplsLoop, List.mem_reverse] at hc
      exact habs c hc
  | cons c cs ih =>
    intro seen acc hseen hpw habs
    rw [getImplsLoop]
    by_cases hs : clsId c ∈ seen
    · rw [if_pos hs]
      exact ih seen acc hseen hpw habs
    · rw [if_neg hs]
      by_cases ha : c.abstractMethods.isEmpty
      · rw [if_pos ha]
        refine ih (clsId c :: seen) (c :: acc) ?_ ?_ ?_
        · intro d hd
          rcases List.mem_cons.mp hd with h1 | h2
          · subst h1
            exact List.mem_cons_self _ _
          · exact List.mem_cons_of_mem _ (hseen d h2)
        · refine List.pairwise_cons.mpr ⟨?_, hpw⟩
          intro d hd hcd
          exact hs (hcd ▸ hseen d hd)
        · intro d hd
          rcases List.mem_cons.mp hd with h1 | h2
          · subst h1
            exact List.isEmpty_iff.mp ha
          · exact habs d h2
      · rw [if_neg ha]
        refine ih (clsId c :: seen) acc ?_ hpw habs
        intro d hd
        exact List.mem_cons_of_mem _ (hseen d hd)

lemma getImplsLoop_mem_of_mem_acc :
    ∀ (cs : List PyCls) (seen : List String) (acc : List PyCls) (c : PyCls),
      c ∈ acc → c ∈ getImplsLoop cs seen acc := by
  intro cs
  induction cs with
  | nil =>
    intro seen acc c hc
    rw [getImplsLoop]
    exact List.mem_reverse.mpr hc
  | cons a cs ih =>
    intro seen acc c hc
    rw [getImplsLoop]
    by_cases hs : clsId a ∈ seen
    · rw [if_pos hs]
      exact ih seen acc c hc
    · rw [if_neg hs]
      by_cases ha : a.abstractMethods.isEmpty
      · rw [if_pos ha]
        exact ih _ _ c (List.mem_cons_of_mem _ hc)
      · rw [if_neg ha]
        exact ih _ _ c hc

lemma getImplsLoop_mem_of_concrete :
    ∀ (cs : List PyCls) (seen : List String) (acc : List PyCls) (c : PyCls),
      c ∈ cs → c.abstractMethods = [] → clsId c ∉ seen →
      (∀ b ∈ cs, clsId b = clsId c → b = c) →
      c ∈ getImplsLoop cs seen acc := by
  intro cs
  induction cs with
  | nil =>
    intro seen acc c hc _ _ _
    exact absurd hc (List.not_mem_nil c)
  | cons a cs ih =>
    intro seen acc c hc habs hseen hinj
    rw [getImplsLoop]
    by_cases hid : clsId a = clsId c
    · have ha : a = c := hinj a (List.mem_cons_self a cs) hid
      subst ha
      rw [if_neg hseen, if_pos (by simp [habs])]
      exact getImplsLoop_mem_of_mem_acc cs _ _ _ (List.mem_cons_self _ _)
    · have hc2 : c ∈ cs := by
        rcases List.mem_cons.mp hc with h1 | h2
        · exact absurd (congrArg clsId h1.symm) hid
        · exact h2
      have hinj2 : ∀ b ∈ cs, clsId b = clsId c → b = c :=
        fun b hb => hinj b (List.mem_cons_of_mem _ hb)
      by_cases hs : clsId a ∈ seen
      · rw [if_pos hs]
        exact ih seen acc c hc2 habs hseen hinj2
      · rw [if_neg hs]
        have hseen2 : clsId c ∉ clsId a :: seen := by
          intro h
          rcases List.mem_cons.mp h with h1 | h2
          · exact hid h1.symm
          · exact hseen h2
        by_cases ha : a.abstractMethods.isEmpty
        · rw [if_pos ha]
          exact ih _ _ c hc2 habs hseen2 hinj2
        · rw [if_neg ha]
          exact ih _ _ c hc2 habs hseen2 hinj2

/-- C9: `getImpls` emits each concrete type exactly once: no two
descriptors share the module-qualified identity, no descriptor has
unimplemented abstract methods, and — provided classes presented with the
same identity are the same class, as with one class reached through
several inheritance edges — every concrete class of the traversal is
present in the result. -/
theorem registry_dedup_C9 (subclasses : List PyCls) :
    (getImpls subclasses).Pairwise (fun a b => clsId a ≠ clsId b) ∧
    (∀ c ∈ getImpls subclasses, c.abstractMethods = []) ∧
    ((∀ a ∈ subclasses, ∀ b ∈ subclasses, clsId a = clsId b → a = b) →
      ∀ c ∈ subclasses, c.abstractMethods = [] → c ∈ getImpls subclasses) := by
  obtain ⟨h1, h2⟩ :=
    getImplsLoop_invariant subclasses [] [] (by simp) List.Pairwise.nil (by simp)
  refine ⟨h1, h2, ?_⟩
  intro hinj c hc habs
  exact getImplsLoop_mem_of_concrete subclasses [] [] c hc habs
    (List.not_mem_nil _) (fun b hb hbc => hinj b hb c hc hbc)

theorem registry_dedup_C9_witness :
    (⟨"impls.tunnel.frp", "FrpTunnel", []⟩ : PyCls) ∈ getImpls c9classes :=
  (registry_dedup_C9 c9classes).2.2 (by decide)
    ⟨"impls.tunnel.frp", "FrpTunnel", []⟩ (by decide) rfl

/-- C10: releasing a port different from the proxy's currently assigned
one removes that port from the used set unconditionally (the used set
becomes the erase of the released port) and still deletes the proxy's
mapping (so `assignedPort` reads `None`), while the actually assigned port
stays in the used-port set. -/
theorem release_mismatch_C10 (pre pname : String) (r : RedisStore) (p q : Nat)
    (_hq : getAssignedPort pre pname r = some q) (hne : p ≠ q)
    (hqmem : q ∈ r.usedPorts) :
    (releasePort pre pname r p).usedPorts = r.usedPorts.erase p ∧
    p ∉ (releasePort pre pname r p).usedPorts ∧
    getAssignedPort pre pname (releasePort pre pname r p) = none ∧
    q ∈ (releasePort pre pname r p).usedPorts := by
  refine ⟨usedPorts_releasePort pre pname r p, ?_,
    getAssignedPort_releasePort pre pname r p, ?_⟩
  · rw [usedPorts_releasePort]
    exact Finset.not_mem_erase _ _
  · rw [usedPorts_releasePort]
    exact Finset.mem_erase.mpr ⟨fun h => hne h.symm, hqmem⟩

theorem release_mismatch_C10_witness :
    (releasePort "frp" "t" (reservePort "frp" "t" ⟨∅, [], 0⟩ 10000) 10001).usedPorts =
      (reservePort "frp" "t" ⟨∅, [], 0⟩ 10000).usedPorts.erase 10001 ∧
    10001 ∉
      (releasePort "frp" "t" (reservePort "frp" "t" ⟨∅, [], 0⟩ 10000) 10001).usedPorts ∧
    getAssignedPort "frp" "t"
      (releasePort "frp" "t" (reservePort "frp" "t" ⟨∅, [], 0⟩ 10000) 10001) =
      none ∧
    10000 ∈
      (releasePort "frp" "t" (reservePort "frp" "t" ⟨∅, [], 0⟩ 10000) 10001).usedPorts :=
  release_mismatch_C10 "frp" "t" (reservePort "frp" "t" ⟨∅, [], 0⟩ 10000)
    10001 10000 rfl (by decide) (by decide)
